import Mathlib

/-!
# Verification of the little-exif PNG codec and metadata model

Shallow embedding of `src/png/vec.rs` and `src/metadata/get.rs` of the
little-exif repository.  Byte buffers (`Vec<u8>`) are embedded as `List Nat`
(each element a byte value); `std::io::Cursor` becomes an explicit position
`Nat`; fallible Rust functions returning `Result<_, std::io::Error>` become
`Except PErr _`, where `PErr.panic` additionally records a Rust panic
(out-of-bounds index / `.unwrap()` on `Err`), which is distinct from the
function returning an error value.

Definitions are translated from the Rust source wherever it is present;
items of the repository that are not part of the two given source files
(constants, `PngChunk::from_string`, the byte-splicing utilities, the
compression collaborators) are modelled from the spec and marked as such in
their doc comments.
-/

namespace LittleExif

/-- Error kinds of `std::io::ErrorKind` used by the PNG codec. -/
inductive ErrKind where
  | invalidData
  | other
  deriving DecidableEq, Repr

/-- Outcome of a fallible Rust computation: a returned `std::io::Error`
(kind plus message) or a Rust panic (which does not return at all). -/
inductive PErr where
  | ioErr (kind : ErrKind) (msg : String)
  | panic
  deriving DecidableEq, Repr

deriving instance DecidableEq for Except

/-- Modelled from the spec: fixed 8-byte PNG signature magic
(`super::PNG_SIGNATURE`). -/
def PNG_SIGNATURE : List Nat := [137, 80, 78, 71, 13, 10, 26, 10]

/-- Modelled from the spec: signature-profile prefix byte sequence
identifying the Exif-carrying zTXt payload flavor
(`super::RAW_PROFILE_TYPE_EXIF`): `"Raw profile type exif"`, null-padded. -/
def RAW_PROFILE_TYPE_EXIF : List Nat :=
  [0x52, 0x61, 0x77, 0x20, 0x70, 0x72, 0x6f, 0x66, 0x69, 0x6c, 0x65, 0x20,
   0x74, 0x79, 0x70, 0x65, 0x20, 0x65, 0x78, 0x69, 0x66, 0x00, 0x00]

/-- The four bytes of the chunk type name `"zTXt"`. -/
def zTXtBytes : List Nat := [0x7a, 0x54, 0x58, 0x74]

/-- The four bytes of the chunk type name `"IEND"`. -/
def IENDBytes : List Nat := [0x49, 0x45, 0x4e, 0x44]

/-! ## CRC-32 (ISO-HDLC / zlib polynomial)

Embedding of `Crc::<u32>::new(&CRC_32_ISO_HDLC).checksum(..)` from the `crc`
crate: the standard reflected CRC-32 with reversed polynomial `0xEDB88320`,
initial value `0xFFFFFFFF` and final xor `0xFFFFFFFF`.  All values stay below
`2 ^ 32`: `Nat.xor` of two values `< 2 ^ 32` is `< 2 ^ 32` and shifting right
only shrinks. -/

/-- One bit-step of the reflected CRC-32: shift right, conditionally xor the
reversed polynomial. -/
def crcBitStep (c : Nat) : Nat :=
  if c % 2 = 1 then Nat.xor (c / 2) 0xEDB88320 else c / 2

/-- Eight bit-steps, processing one byte's worth of the CRC register. -/
def crcByteSteps (c : Nat) : Nat :=
  crcBitStep (crcBitStep (crcBitStep (crcBitStep
    (crcBitStep (crcBitStep (crcBitStep (crcBitStep c)))))))

/-- CRC-32 (ISO-HDLC) checksum of a byte list. -/
def crc32 (data : List Nat) : Nat :=
  Nat.xor (data.foldl (fun c b => crcByteSteps (Nat.xor c b)) 0xFFFFFFFF) 0xFFFFFFFF

/-- Big-endian 4-byte encoding of a 32-bit value, as produced by the loops
`(checksum >> (8 * (3 - i))) as u8` in the Rust source. -/
def be32Bytes (x : Nat) : List Nat :=
  [x / 2 ^ 24 % 256, x / 2 ^ 16 % 256, x / 2 ^ 8 % 256, x % 256]

/-- Big-endian value of a byte list, as computed by the fold
`chunk_length = chunk_length * 256 + byte` in `get_next_chunk_descriptor`. -/
def be32Val (l : List Nat) : Nat :=
  l.foldl (fun a b => a * 256 + b) 0

/-! ## Cursor reads -/

/-- The byte slice `buf[i .. i + n]`, truncated at the end of the buffer. -/
def extract (buf : List Nat) (i n : Nat) : List Nat :=
  (buf.drop i).take n

/-- Number of bytes a `Cursor::read` into an `n`-byte slice at position
`pos` actually fills. -/
def readCount (buf : List Nat) (pos n : Nat) : Nat :=
  min n (buf.length - pos)

/-! ## UTF-8 validity

`String::from_utf8` on the 4 name bytes succeeds exactly when they form a
valid UTF-8 sequence; the chunk reader `.unwrap()`s that result.  Standard
UTF-8 validation (continuation ranges, overlong and surrogate exclusions). -/

/-- Is `b` a UTF-8 continuation byte (`0x80..=0xBF`)? -/
def contByte (b : Nat) : Bool :=
  0x80 ≤ b && b ≤ 0xBF

/-- Standard UTF-8 validity of a byte list, as decided by
`String::from_utf8`. -/
def validUtf8 : List Nat → Bool
  | [] => true
  | b :: rest =>
    if b ≤ 0x7F then validUtf8 rest
    else if 0xC2 ≤ b && b ≤ 0xDF then
      match rest with
      | c1 :: r => contByte c1 && validUtf8 r
      | [] => false
    else if b = 0xE0 then
      match rest with
      | c1 :: c2 :: r => (0xA0 ≤ c1 && c1 ≤ 0xBF) && contByte c2 && validUtf8 r
      | _ => false
    else if (0xE1 ≤ b && b ≤ 0xEC) || b = 0xEE || b = 0xEF then
      match rest with
      | c1 :: c2 :: r => contByte c1 && contByte c2 && validUtf8 r
      | _ => false
    else if b = 0xED then
      match rest with
      | c1 :: c2 :: r => (0x80 ≤ c1 && c1 ≤ 0x9F) && contByte c2 && validUtf8 r
      | _ => false
    else if b = 0xF0 then
      match rest with
      | c1 :: c2 :: c3 :: r =>
        (0x90 ≤ c1 && c1 ≤ 0xBF) && contByte c2 && contByte c3 && validUtf8 r
      | _ => false
    else if 0xF1 ≤ b && b ≤ 0xF3 then
      match rest with
      | c1 :: c2 :: c3 :: r => contByte c1 && contByte c2 && contByte c3 && validUtf8 r
      | _ => false
    else if b = 0xF4 then
      match rest with
      | c1 :: c2 :: c3 :: r =>
        (0x80 ≤ c1 && c1 ≤ 0x8F) && contByte c2 && contByte c3 && validUtf8 r
      | _ => false
    else false

/-! ## Chunk descriptors -/

/-- `PngChunk` descriptor (`png_chunk.rs`, not under `src/`): a parsed chunk
header.  Modelled from the spec: "a 4-character ASCII type name and a 32-bit
unsigned length (payload length, excluding the 4-byte length field, 4-byte
type field, and 4-byte CRC trailer)".  The name is kept as its raw bytes;
for names that pass UTF-8 decoding, byte-list equality coincides with the
`as_string()` comparisons of the source. -/
structure PngChunk where
  name : List Nat
  length : Nat
  deriving DecidableEq, Repr

/-- Modelled from the spec: the accepted-name grammar of
`PngChunk::from_string` — a 4-character ASCII chunk type name, each
character an ASCII letter. -/
def acceptedName (name : List Nat) : Bool :=
  name.length = 4 &&
    name.all (fun b => (0x41 ≤ b && b ≤ 0x5A) || (0x61 ≤ b && b ≤ 0x7A))

/-- Modelled from the spec: `PngChunk::from_string` builds a descriptor from
a decoded name and a length, failing when the name fails the accepted-name
check. -/
def pngChunkFromName (name : List Nat) (len : Nat) : Option PngChunk :=
  if acceptedName name then some ⟨name, len⟩ else none

/-- Embedding of `get_next_chunk_descriptor` (vec.rs:51-121).  `pos` is the
cursor position; on success the new cursor position `pos + 12 + length` is
returned alongside the descriptor.  The `.unwrap()` of the `from_utf8`
result at vec.rs:111 panics when the name bytes are not valid UTF-8. -/
def getNext (buf : List Nat) (pos : Nat) : Except PErr (PngChunk × Nat) :=
  if readCount buf pos 8 ≠ 8 then
    .error (.ioErr .other "Could not read start of chunk")
  else
    let chunkStart := extract buf pos 8
    let name := chunkStart.drop 4
    let len := be32Val (chunkStart.take 4)
    if readCount buf (pos + 8) len ≠ len then
      .error (.ioErr .other "Could not read chunk data")
    else
      let data := extract buf (pos + 8) len
      if readCount buf (pos + 8 + len) 4 ≠ 4 then
        .error (.ioErr .other "Could not read chunk CRC")
      else
        let crcBuf := extract buf (pos + 8 + len) 4
        if be32Bytes (crc32 (name ++ data)) ≠ crcBuf then
          .error (.ioErr .invalidData "Checksum check failed while reading PNG!")
        else
          if validUtf8 name then
            match pngChunkFromName name len with
            | some c => .ok (c, pos + 12 + len)
            | none => .error (.ioErr .other "Invalid PNG chunk name")
          else .error .panic

/-! ## Signature check and the parse loop -/

/-- Embedding of `check_signature` (vec.rs:25-47).  The unconditional slice
`file_buffer[0..8]` panics when the buffer is shorter than 8 bytes; otherwise
the first 8 bytes are compared element-wise against the signature (the
zip/filter/count in the source counts the matching positions and demands all
8 match).  On success the returned cursor is positioned at byte 8. -/
def checkSignature (buf : List Nat) : Except PErr Nat :=
  if buf.length < 8 then .error .panic
  else
    let nMatches := ((buf.take 8).zip PNG_SIGNATURE).countP (fun p => p.1 = p.2)
    if nMatches ≠ PNG_SIGNATURE.length then
      .error (.ioErr .invalidData "Can't open PNG file - Wrong signature!")
    else .ok 8

/-- The loop of `parse_png` (vec.rs:136-145), with the cursor position made
explicit and each descriptor additionally annotated with the position of its
chunk's length field (the source recomputes these positions from the cursor;
`parsePng` below projects the annotation away).  The loop runs until a chunk
named "IEND" is pushed or an error propagates; `fuel` is a structural bound
on the number of iterations — every successful chunk read advances the
cursor by at least 12 bytes inside the buffer, so `buf.length + 1` steps can
never be exhausted (the fuel-out branch is unreachable from `parsePngFull`). -/
def parseAnnotAux (buf : List Nat) : Nat → Nat → Except PErr (List (Nat × PngChunk) × Nat)
  | 0, _ => .error (.ioErr .other "Could not read start of chunk")
  | fuel + 1, pos =>
    match getNext buf pos with
    | .error e => .error e
    | .ok (c, pos') =>
      if c.name = IENDBytes then .ok ([(pos, c)], pos')
      else
        match parseAnnotAux buf fuel pos' with
        | .error e => .error e
        | .ok (l, e) => .ok ((pos, c) :: l, e)

/-- `parse_png` (vec.rs:126-148) instrumented with chunk positions and the
final cursor position. -/
def parsePngFull (buf : List Nat) : Except PErr (List (Nat × PngChunk) × Nat) :=
  match checkSignature buf with
  | .error e => .error e
  | .ok pos => parseAnnotAux buf (buf.length + 1) pos

/-- Embedding of `parse_png` (vec.rs:126-148): the list of chunk
descriptors. -/
def parsePng (buf : List Nat) : Except PErr (List PngChunk) :=
  match parsePngFull buf with
  | .error e => .error e
  | .ok (l, _) => .ok (l.map (·.2))

/-! ## Byte-splicing primitives (`crate::util`, not under `src/`) -/

/-- Modelled from the spec: `range_remove(buffer, start, end)` removes the
byte range `[start, end)` in place, all bytes before and after shifting
accordingly. -/
def rangeRemove (buf : List Nat) (start stop : Nat) : List Nat :=
  buf.take start ++ buf.drop stop

/-- Modelled from the spec: `insert_multiple_at(buffer, position, values)`
inserts the given bytes at the given position, shifting all following bytes
forward. -/
def insertAt (buf : List Nat) (pos : Nat) (values : List Nat) : List Nat :=
  buf.take pos ++ values ++ buf.drop pos

/-! ## The signature-profile prefix comparison

Both `clear_metadata` (vec.rs:192-200) and `read_metadata` (vec.rs:256-264)
run `for i in 0..RAW_PROFILE_TYPE_EXIF.len() { if data[i] != RAW[i] { ok =
false; break } }`.  The index `data[i]` panics when the loop reaches an `i`
beyond the end of `data` before finding a mismatch. -/

/-- The comparison loop from index `i`, with `raw` the remaining suffix of
`RAW_PROFILE_TYPE_EXIF`: `.ok false` at the first mismatch, `.ok true` when
all prefix bytes matched, panic on an out-of-bounds index. -/
def comparePrefixFrom (data : List Nat) : Nat → List Nat → Except PErr Bool
  | _, [] => .ok true
  | i, r :: rs =>
    match data[i]? with
    | none => .error .panic
    | some d => if d ≠ r then .ok false else comparePrefixFrom data (i + 1) rs

/-- The whole `correct_zTXt_chunk` comparison loop. -/
def comparePrefix (data : List Nat) : Except PErr Bool :=
  comparePrefixFrom data 0 RAW_PROFILE_TYPE_EXIF

/-! ## clear_metadata -/

/-- The chunk walk of `clear_metadata` (vec.rs:169-216).  `pos` is the
cursor position and `seek` the `seek_counter` bookkeeping variable.  Note
two faithful quirks of the source: the cursor was created with
`Cursor::new` (position 0, vec.rs:166) while `seek_counter` starts at 8, and
`seek_counter` is not advanced for zTXt chunks.  The final buffer state is
returned alongside the result so that mutation (or its absence) is
observable on the error paths as well. -/
def clearLoop : List Nat → List PngChunk → Nat → Nat → Except PErr Unit × List Nat
  | buf, [], _, _ => (.ok (), buf)
  | buf, c :: rest, pos, seek =>
    if c.name ≠ zTXtBytes then
      clearLoop buf rest (pos + c.length + 12) (seek + c.length + 12)
    else
      let pos1 := pos + 8
      if readCount buf pos1 c.length ≠ c.length then
        (.error (.ioErr .other "Could not read chunk data"), buf)
      else
        let data := extract buf pos1 c.length
        match comparePrefix data with
        | .error e => (.error e, buf)
        | .ok correct =>
          let pos2 := pos1 + c.length + 4
          if correct then
            clearLoop (rangeRemove buf seek pos2) rest pos2 seek
          else
            clearLoop buf rest pos2 seek

/-- Embedding of `clear_metadata` (vec.rs:153-219), returning the Rust
result together with the final state of the `&mut Vec<u8>` buffer. -/
def clearMetadata (buf : List Nat) : Except PErr Unit × List Nat :=
  match parsePng buf with
  | .error e => (.error e, buf)
  | .ok chunks => clearLoop buf chunks 0 8

/-! ## read_metadata

The decompression and PNG-specific decoding collaborators
(`miniz_oxide::inflate::decompress_to_vec_zlib`, `decode_metadata_png`) are
not part of the two source files; modelled from the spec as parameters: a
fallible inflate `decompress` and a decode `decodePng` whose `Err` outcome
makes the `.unwrap()` at vec.rs:277 panic. -/

/-- The chunk walk of `read_metadata` (vec.rs:234-283); here the cursor
correctly starts at position 8 (the source re-runs `check_signature`). -/
def readLoop (decompress : List Nat → Option (List Nat))
    (decodePng : List Nat → Option (List Nat)) :
    List Nat → List PngChunk → Nat → Except PErr (List Nat)
  | _, [], _ => .error (.ioErr .other "No metadata found!")
  | buf, c :: rest, pos =>
    if c.name ≠ zTXtBytes then
      readLoop decompress decodePng buf rest (pos + c.length + 12)
    else
      let pos1 := pos + 8
      if readCount buf pos1 c.length ≠ c.length then
        .error (.ioErr .other "Could not read chunk data")
      else
        let data := extract buf pos1 c.length
        match comparePrefix data with
        | .error e => .error e
        | .ok correct =>
          if correct then
            match decompress (data.drop RAW_PROFILE_TYPE_EXIF.length) with
            | some inflated =>
              match decodePng inflated with
              | some decoded => .ok decoded
              | none => .error .panic
            | none => .error (.ioErr .other "Could not inflate compressed chunk data!")
          else
            readLoop decompress decodePng buf rest (pos1 + c.length + 4)

/-- Embedding of `read_metadata` (vec.rs:222-287).  The second
`check_signature` call is `.unwrap()`ed (vec.rs:233): an error there would
panic (unreachable after a successful parse). -/
def readMetadata (decompress : List Nat → Option (List Nat))
    (decodePng : List Nat → Option (List Nat)) (buf : List Nat) :
    Except PErr (List Nat) :=
  match parsePng buf with
  | .error e => .error e
  | .ok chunks =>
    match checkSignature buf with
    | .error _ => .error .panic
    | .ok pos => readLoop decompress decodePng buf chunks pos

/-! ## write_metadata

`compress_to_vec_zlib`, `encode_metadata_png` and `Metadata::encode` are
collaborators outside the two source files; modelled from the spec as one
parameter: `encoded` stands for the result of
`compress_to_vec_zlib(&encode_metadata_png(&metadata.encode()?), 8)`, an
`Except` since `metadata.encode()` is fallible (its error is propagated by
the `?` at vec.rs:312). -/

/-- Embedding of `write_metadata` (vec.rs:292-346), returning the Rust
result together with the final buffer state.  `chunks[0]` at vec.rs:308
panics on an empty chunk list; a failing re-parse leaves `IHDR_length = 0`
(the `if let Ok` silently ignores the error). -/
def writeMetadata (buf : List Nat) (encoded : Except PErr (List Nat)) :
    Except PErr Unit × List Nat :=
  match clearMetadata buf with
  | (.error e, b) => (.error e, b)
  | (.ok _, b) =>
    match parsePng b with
    | .ok [] => (.error .panic, b)
    | .ok (c0 :: _) => writeAfterClear b c0.length encoded
    | .error _ => writeAfterClear b 0 encoded
where
  /-- vec.rs:311-345: chunk assembly and splicing, given the cleared buffer
  and `IHDR_length`. -/
  writeAfterClear (b : List Nat) (ihdrLength : Nat)
      (encoded : Except PErr (List Nat)) : Except PErr Unit × List Nat :=
    match encoded with
    | .error e => (.error e, b)
    | .ok enc =>
      let seekStart := PNG_SIGNATURE.length + ihdrLength + 12
      let body0 := zTXtBytes ++ RAW_PROFILE_TYPE_EXIF ++ enc
      let body := body0 ++ be32Bytes (crc32 body0)
      -- `zTXt_chunk_data.len() as u32 - 8` : u32 wrapping subtraction
      let chunkDataLen := (body.length % 2 ^ 32 + (2 ^ 32 - 8)) % 2 ^ 32
      let b1 := insertAt b seekStart (be32Bytes chunkDataLen)
      let b2 := insertAt b1 (seekStart + 4) body
      (.ok (), b2)

/-- The number of metadata-carrying chunks a buffer holds: zTXt chunks of
the parsed chunk walk whose payload begins with the signature-profile
prefix. -/
def matchingCount (buf : List Nat) : Option Nat :=
  match parsePngFull buf with
  | .error _ => none
  | .ok (l, _) =>
    some (l.countP (fun p =>
      p.2.name == zTXtBytes &&
        RAW_PROFILE_TYPE_EXIF.isPrefixOf (extract buf (p.1 + 8) p.2.length)))

/-! ## The metadata model and the tag iterator (`src/metadata/get.rs`)

`ExifTag`, `ImageFileDirectory` and the `Metadata` struct fields live
outside the two source files; modelled from the spec: a tag is identified by
a 16-bit numeric code (`as_u16`) and carries a typed payload; an IFD is an
ordered sequence of tags; a `Metadata` owns an ordered collection of IFDs.
Only what `get.rs` touches is modelled. -/

/-- Modelled from the spec: a tag with its numeric code (`as_u16`) and an
opaque payload distinguishing tags of equal code. -/
structure ExifTag where
  code : Nat
  payload : List Nat
  deriving DecidableEq, Repr

/-- Modelled from the spec: an ordered sequence of tags (`get_tags`). -/
structure ImageFileDirectory where
  tags : List ExifTag
  deriving DecidableEq, Repr

/-- Modelled from the spec: the ordered IFD collection of a container. -/
structure Metadata where
  image_file_directories : List ImageFileDirectory
  deriving DecidableEq, Repr

/-- The `GetTagIterator` state (get.rs:138-145): a reference to the
container, the two cursor indices and the requested code. -/
structure GetTagIterator where
  metadata : Metadata
  current_ifd_index : Nat
  current_tag_index : Nat
  tag_hex_value : Nat
  deriving DecidableEq, Repr

/-- `Metadata::get_tag_by_hex` (get.rs:120-135): the initial iterator
state. -/
def Metadata.get_tag_by_hex (m : Metadata) (hex : Nat) : GetTagIterator :=
  ⟨m, 0, 0, hex⟩

/-- Total number of tags across all IFDs. -/
def totalTags (m : Metadata) : Nat :=
  (m.image_file_directories.map (fun ifd => ifd.tags.length)).sum

/-- The `while` loop of `GetTagIterator::next` (get.rs:159-175), stepping
the indices `(i, j)`; on a yield the tag and the updated indices are
returned (the source increments `current_tag_index` and returns
`tags[current_tag_index - 1]`).  `fuel` is a structural bound on the loop
iterations: every iteration either consumes one tag of the current IFD or
moves past one IFD, so `GetTagIterator.next` below supplies fuel that can
never be exhausted. -/
def nextAux (m : Metadata) (hex : Nat) : Nat → Nat → Nat → Option (ExifTag × Nat × Nat)
  | 0, _, _ => none
  | fuel + 1, i, j =>
    if i < m.image_file_directories.length then
      let tags := (m.image_file_directories.getD i ⟨[]⟩).tags
      if j < tags.length then
        let t := tags.getD j ⟨0, []⟩
        if t.code = hex then some (t, i, j + 1)
        else nextAux m hex fuel i (j + 1)
      else nextAux m hex fuel (i + 1) 0
    else none

/-- `GetTagIterator::next` (get.rs:147-178). -/
def GetTagIterator.next (it : GetTagIterator) : Option (ExifTag × GetTagIterator) :=
  match nextAux it.metadata it.tag_hex_value
      (it.metadata.image_file_directories.length + totalTags it.metadata + 1)
      it.current_ifd_index it.current_tag_index with
  | none => none
  | some (t, i, j) => some (t, ⟨it.metadata, i, j, it.tag_hex_value⟩)

/-- Exhaust the iterator, collecting every yielded tag in order (at most
`fuel` yields). -/
def collectAux : Nat → GetTagIterator → List ExifTag
  | 0, _ => []
  | fuel + 1, it =>
    match it.next with
    | none => []
    | some (t, it') => t :: collectAux fuel it'

/-- The full yielded sequence of an iterator: the iterator yields at most
one tag per stored tag, so `totalTags + 1` rounds exhaust it. -/
def yieldList (it : GetTagIterator) : List ExifTag :=
  collectAux (totalTags it.metadata + 1) it

/-! ## Facts about the chunk reader -/

theorem getNext_ok {buf : List Nat} {pos : Nat} {c : PngChunk} {pos' : Nat}
    (h : getNext buf pos = .ok (c, pos')) :
    pos + 8 ≤ buf.length ∧ pos' = pos + 12 + c.length ∧ pos' ≤ buf.length ∧
    c.name = extract buf (pos + 4) 4 ∧
    c.length = be32Val (extract buf pos 4) := by
  unfold getNext at h
  dsimp only at h
  split at h
  · exact absurd h (by simp)
  next h8 =>
    split at h
    · exact absurd h (by simp)
    next hd =>
      split at h
      · exact absurd h (by simp)
      next hc =>
        split at h
        · exact absurd h (by simp)
        next hcrc =>
          split at h
          case isFalse => exact absurd h (by simp)
          next hv =>
            have htk : (extract buf pos 8).take 4 = extract buf pos 4 := by
              simp [extract, List.take_take]
            have hname : (extract buf pos 8).drop 4 = extract buf (pos + 4) 4 := by
              simp [extract, List.drop_take, List.drop_drop]
            cases hacc : acceptedName ((extract buf pos 8).drop 4) <;>
              simp [pngChunkFromName, hacc] at h
            obtain ⟨hc1, hp1⟩ := h
            rw [htk] at hd hc hc1 hp1
            subst hc1
            simp only [readCount] at h8 hd hc
            refine ⟨by omega, ?_, by omega, hname, rfl⟩
            simp only
            omega

theorem extract_take_eq {buf buf' : List Nat} {m : Nat} (hb : buf'.take m = buf.take m)
    {i n : Nat} (h : i + n ≤ m) : extract buf' i n = extract buf i n := by
  have key : ∀ l : List Nat, extract l i n = ((l.take m).drop i).take n := by
    intro l
    rw [List.drop_take, List.take_take]
    simp only [extract]
    congr 1
    omega
  rw [key buf, key buf', hb]

/-- The chunk reader only inspects bytes before the returned position: its
result survives arbitrary modification of the buffer past that point. -/
theorem getNext_stable {buf buf' : List Nat} {pos : Nat} {c : PngChunk} {pos' : Nat}
    (h : getNext buf pos = .ok (c, pos')) (hb : buf'.take pos' = buf.take pos') :
    getNext buf' pos = .ok (c, pos') := by
  obtain ⟨h8, hp, hple, hname, hlen⟩ := getNext_ok h
  have htk : (extract buf pos 8).take 4 = extract buf pos 4 := by
    simp [extract, List.take_take]
  have hlv : be32Val ((extract buf pos 8).take 4) = c.length := by rw [htk, ← hlen]
  have hlb : pos' ≤ buf'.length := by
    have h1 := congrArg List.length hb
    simp only [List.length_take] at h1
    omega
  have hex8 : extract buf' pos 8 = extract buf pos 8 := extract_take_eq hb (by omega)
  have hexD : extract buf' (pos + 8) c.length = extract buf (pos + 8) c.length :=
    extract_take_eq hb (by omega)
  have hexC : extract buf' (pos + 8 + c.length) 4 = extract buf (pos + 8 + c.length) 4 :=
    extract_take_eq hb (by omega)
  have r1 : readCount buf' pos 8 = 8 := by simp [readCount]; omega
  have r2 : readCount buf' (pos + 8) c.length = c.length := by simp [readCount]; omega
  have r3 : readCount buf' (pos + 8 + c.length) 4 = 4 := by simp [readCount]; omega
  have s1 : readCount buf pos 8 = 8 := by simp [readCount]; omega
  have s2 : readCount buf (pos + 8) c.length = c.length := by simp [readCount]; omega
  have s3 : readCount buf (pos + 8 + c.length) 4 = 4 := by simp [readCount]; omega
  unfold getNext at h ⊢
  dsimp only at h ⊢
  simp only [hlv, s1, s2, s3] at h
  simp only [hex8, hlv, hexD, hexC, r1, r2, r3]
  exact h

/-! ## The parse walk

`Walk buf pos l e` is the big-step reading of the `parse_png` loop: from
cursor position `pos` the annotated chunk list `l` is read, ending at
position `e` with the single closing "IEND" chunk. -/

inductive Walk (buf : List Nat) : Nat → List (Nat × PngChunk) → Nat → Prop where
  | last {pos c e} : getNext buf pos = .ok (c, e) → c.name = IENDBytes →
      Walk buf pos [(pos, c)] e
  | cons {pos c pos' l e} : getNext buf pos = .ok (c, pos') → c.name ≠ IENDBytes →
      Walk buf pos' l e → Walk buf pos ((pos, c) :: l) e

/-- Soundness of the fuelled loop with respect to the walk. -/
theorem parseAnnotAux_walk {buf : List Nat} :
    ∀ {fuel pos l e}, parseAnnotAux buf fuel pos = .ok (l, e) → Walk buf pos l e := by
  intro fuel
  induction fuel with
  | zero => intro pos l e h; exact absurd h (by simp [parseAnnotAux])
  | succ fuel ih =>
    intro pos l e h
    unfold parseAnnotAux at h
    split at h
    · exact absurd h (by simp)
    next c pos' hg =>
      split at h
      next hiend =>
        simp only [Except.ok.injEq, Prod.mk.injEq] at h
        obtain ⟨hl, he⟩ := h
        subst hl he
        exact Walk.last hg hiend
      next hiend =>
        split at h
        · exact absurd h (by simp)
        next l' e' hrec =>
          simp only [Except.ok.injEq, Prod.mk.injEq] at h
          obtain ⟨hl, he⟩ := h
          subst hl he
          exact Walk.cons hg hiend (ih hrec)

/-- Completeness: a walk of `n` chunks is reproduced by the loop under any
fuel of at least `n`. -/
theorem walk_parseAnnotAux {buf : List Nat} {pos : Nat} {l : List (Nat × PngChunk)}
    {e : Nat} (w : Walk buf pos l e) :
    ∀ {fuel}, l.length ≤ fuel → parseAnnotAux buf fuel pos = .ok (l, e) := by
  induction w with
  | last hg hiend =>
    intro fuel hf
    cases fuel with
    | zero => simp at hf
    | succ fuel =>
      unfold parseAnnotAux
      rw [hg]
      simp [hiend]
  | cons hg hiend _ ih =>
    intro fuel hf
    cases fuel with
    | zero => simp at hf
    | succ fuel =>
      unfold parseAnnotAux
      rw [hg]
      dsimp only
      rw [if_neg hiend]
      simp only [List.length_cons] at hf
      rw [ih (by omega)]

/-- Bounds of a walk: position bookkeeping of the loop.  Every chunk costs
at least 12 bytes, and the walk stays inside the buffer. -/
theorem walk_bounds {buf : List Nat} {pos : Nat} {l : List (Nat × PngChunk)} {e : Nat}
    (w : Walk buf pos l e) :
    pos + 12 * l.length ≤ e ∧ e ≤ buf.length := by
  induction w with
  | last hg _ =>
    obtain ⟨_, hp, hple, _, _⟩ := getNext_ok hg
    simp only [List.length_cons, List.length_nil]
    omega
  | cons hg _ _ ih =>
    obtain ⟨_, hp, hple, _, _⟩ := getNext_ok hg
    simp only [List.length_cons]
    omega

/-! ## Facts about the prefix-comparison loop -/

/-- A `true` verdict of the comparison loop pins down every byte of `data`
the remaining `raw` suffix covers. -/
theorem comparePrefixFrom_true {data : List Nat} :
    ∀ {raw : List Nat} {i : Nat}, comparePrefixFrom data i raw = .ok true →
      ∀ {k r}, raw[k]? = some r → data[i + k]? = some r := by
  intro raw
  induction raw with
  | nil =>
    intro i h k r hk
    simp at hk
  | cons a as ih =>
    intro i h k r hk
    unfold comparePrefixFrom at h
    split at h
    · exact absurd h (by simp)
    next d hd =>
      split at h
      · exact absurd h (by simp)
      next hne =>
        cases k with
        | zero =>
          simp only [List.getElem?_cons_zero, Option.some.injEq] at hk
          have hda : d = a := by
            by_contra hcon
            exact hne hcon
          subst hk hda
          simpa using hd
        | succ k =>
          simp only [List.getElem?_cons_succ] at hk
          have := ih h hk
          simpa [Nat.add_assoc, Nat.add_comm 1 k] using this

/-- When `data` is at least as long as the prefix constant, the comparison
loop cannot panic: it decides the `isPrefixOf` relation. -/
theorem comparePrefix_spec {data : List Nat}
    (hlen : RAW_PROFILE_TYPE_EXIF.length ≤ data.length) :
    comparePrefix data = .ok (RAW_PROFILE_TYPE_EXIF.isPrefixOf data) := by
  have key : ∀ (raw : List Nat) (i : Nat), i + raw.length ≤ data.length →
      comparePrefixFrom data i raw = .ok (raw.isPrefixOf (data.drop i)) := by
    intro raw
    induction raw with
    | nil =>
      intro i _
      simp [comparePrefixFrom, List.isPrefixOf]
    | cons a as ih =>
      intro i hi
      have hlt : i < data.length := by
        simp only [List.length_cons] at hi
        omega
      have hd : data[i]? = some data[i] := List.getElem?_eq_some.mpr ⟨hlt, rfl⟩
      have hdrop : data.drop i = data[i] :: data.drop (i + 1) :=
        List.drop_eq_getElem_cons hlt
      unfold comparePrefixFrom
      rw [hd]
      dsimp only
      rw [hdrop]
      by_cases hda : data[i] = a
      · rw [if_neg (by simpa using hda)]
        rw [ih (i + 1) (by simp only [List.length_cons] at hi; omega)]
        simp [List.isPrefixOf, hda]
      · rw [if_pos (by simpa using hda)]
        simp [List.isPrefixOf, Ne.symm hda]
  have h0 := key RAW_PROFILE_TYPE_EXIF 0 (by simpa using hlen)
  simpa [comparePrefix] using h0
theorem walk_stable {buf buf' : List Nat} {pos : Nat} {l : List (Nat × PngChunk)}
    {e : Nat} (w : Walk buf pos l e) :
    buf'.take e = buf.take e → Walk buf' pos l e := by
  induction w with
  | last hg hiend =>
    intro hb
    exact Walk.last (getNext_stable hg hb) hiend
  | @cons pos c pos' l e hg hiend w' ih =>
    intro hb
    have hle : pos' ≤ e := by
      have := (walk_bounds w').1
      omega
    have hb' : buf'.take pos' = buf.take pos' := by
      have h1 : ∀ lx : List Nat, lx.take pos' = (lx.take e).take pos' := by
        intro lx
        rw [List.take_take]
        congr 1
        omega
      rw [h1 buf, h1 buf', hb]
    exact Walk.cons (getNext_stable hg hb') hiend (ih hb)

/-! ## clear_metadata never mutates the buffer

The `Cursor::new` slip in `clear_metadata` (vec.rs:166) makes the cursor
trail the true chunk positions by 8 bytes while `seek_counter` starts at 8:
the bytes the loop compares against the signature-profile prefix are the
chunk's own length and type fields.  At comparison index 4 the buffer byte
is `'z'` (0x7a) of `"zTXt"` while the constant holds `'p'` (0x70) of
`"profile"`, so the comparison can never succeed and the removal branch is
unreachable. -/

/-- The walk invariant of the buggy clear loop: the cursor `p` trails the
true chunk position by 8 bytes, and whatever `seek` holds, the loop never
changes the buffer. -/
theorem clearLoop_no_mutation {buf : List Nat} {pos : Nat} {l : List (Nat × PngChunk)}
    {e : Nat} (w : Walk buf pos l e) :
    ∀ {p seek}, p + 8 = pos → (clearLoop buf (l.map (·.2)) p seek).2 = buf := by
  induction w with
  | @last pos c e hg hiend =>
    intro p seek _
    have hz : c.name ≠ zTXtBytes := by
      rw [hiend]
      decide
    simp [clearLoop, hz]
  | @cons pos c pos' l e hg hiend w' ih =>
    intro p seek hp
    subst hp
    obtain ⟨h8, hpos', hple, hname, hlen⟩ := getNext_ok hg
    simp only [List.map_cons]
    by_cases hz : c.name = zTXtBytes
    · unfold clearLoop
      rw [if_neg (by simpa using hz)]
      have hrc : readCount buf (p + 8) c.length = c.length := by
        simp only [readCount]
        omega
      rw [if_neg (by simp [hrc])]
      have hbyte : buf[p + 8 + 4]? = some 0x7a := by
        have h0 : (extract buf (p + 8 + 4) 4)[0]? = some 0x7a := by
          rw [← hname, hz]
          rfl
        simp only [extract, List.getElem?_take, List.getElem?_drop] at h0
        simpa using h0
      cases hcp : comparePrefix (extract buf (p + 8) c.length) with
      | error err => simp [hcp]
      | ok correct =>
        cases correct with
        | true =>
          exfalso
          have h4 : (extract buf (p + 8) c.length)[(0 : Nat) + 4]? = some 0x70 :=
            comparePrefixFrom_true hcp (k := 4) (r := 0x70) (by rfl)
          simp only [extract, List.getElem?_take, List.getElem?_drop] at h4
          split at h4
          · rw [show p + 8 + 4 = p + 8 + 4 from rfl] at h4
            rw [hbyte] at h4
            simp at h4
          · simp at h4
        | false =>
          simp only [hcp]
          rw [if_neg (by simp)]
          exact ih (by omega)
    · unfold clearLoop
      rw [if_pos (by simpa using hz)]
      exact ih (by omega)

/-! ## Parse-level lemmas -/

/-- Inversion of a successful signature check. -/
theorem checkSignature_ok {buf : List Nat} {p : Nat} (h : checkSignature buf = .ok p) :
    p = 8 ∧ 8 ≤ buf.length := by
  unfold checkSignature at h
  dsimp only at h
  split at h
  · exact absurd h (by simp)
  next hlt =>
    split at h
    · exact absurd h (by simp)
    · exact ⟨by simpa using h.symm, by omega⟩

/-- The signature check only inspects the first 8 bytes. -/
theorem checkSignature_stable {buf buf' : List Nat} {p : Nat}
    (h : checkSignature buf = .ok p) (hb : buf'.take 8 = buf.take 8)
    (hl : 8 ≤ buf'.length) : checkSignature buf' = .ok p := by
  obtain ⟨hp, hlen⟩ := checkSignature_ok h
  unfold checkSignature at h ⊢
  dsimp only at h ⊢
  rw [if_neg (by omega)] at h ⊢
  rw [hb]
  exact h

/-- Inversion of a successful `parse_png`: the walk, the signature, and the
projection to the plain descriptor list. -/
theorem parsePngFull_ok {buf : List Nat} {l : List (Nat × PngChunk)} {e : Nat}
    (h : parsePngFull buf = .ok (l, e)) :
    Walk buf 8 l e ∧ checkSignature buf = .ok 8 ∧
      parsePng buf = .ok (l.map (·.2)) := by
  unfold parsePngFull at h
  cases hs : checkSignature buf with
  | error err =>
    rw [hs] at h
    exact absurd h (by simp)
  | ok pos0 =>
    have hpos0 := (checkSignature_ok hs).1
    subst hpos0
    rw [hs] at h
    dsimp only at h
    refine ⟨parseAnnotAux_walk h, rfl, ?_⟩
    unfold parsePng parsePngFull
    rw [hs]
    dsimp only
    rw [h]

/-- A successful parse only depends on the bytes before its final cursor
position: the same annotated chunk list is returned for any buffer agreeing
on those bytes. -/
theorem parsePngFull_stable {buf buf' : List Nat} {l : List (Nat × PngChunk)} {e : Nat}
    (h : parsePngFull buf = .ok (l, e)) (hb : buf'.take e = buf.take e) :
    parsePngFull buf' = .ok (l, e) := by
  obtain ⟨w, hs, _⟩ := parsePngFull_ok h
  obtain ⟨hbound, hle⟩ := walk_bounds w
  have hl' : e ≤ buf'.length := by
    have h1 := congrArg List.length hb
    simp only [List.length_take] at h1
    omega
  have h8e : 8 ≤ e := by omega
  have hb8 : buf'.take 8 = buf.take 8 := by
    have h1 : ∀ lx : List Nat, lx.take 8 = (lx.take e).take 8 := by
      intro lx
      rw [List.take_take]
      congr 1
      omega
    rw [h1 buf, h1 buf', hb]
  have hs' : checkSignature buf' = .ok 8 := checkSignature_stable hs hb8 (by omega)
  have w' : Walk buf' 8 l e := walk_stable w hb
  unfold parsePngFull
  rw [hs']
  dsimp only
  exact walk_parseAnnotAux w' (by omega)

/-- The parsed chunk sequence is nonempty, ends with the single "IEND"
chunk, and no earlier chunk is named "IEND". -/
theorem walk_iend {buf : List Nat} {pos : Nat} {l : List (Nat × PngChunk)} {e : Nat}
    (w : Walk buf pos l e) :
    l ≠ [] ∧ (l.getLast?.map (fun p => p.2.name)) = some IENDBytes ∧
      ∀ p ∈ l.dropLast, p.2.name ≠ IENDBytes := by
  induction w with
  | last hg hiend =>
    refine ⟨by simp, by simpa using hiend, by simp⟩
  | @cons pos c pos' l e hg hiend w' ih =>
    obtain ⟨hne, hlast, hdrop⟩ := ih
    have hcons : ((pos, c) :: l).getLast? = l.getLast? := by
      cases l with
      | nil => exact absurd rfl hne
      | cons b bs => simp [List.getLast?_cons_cons]
    refine ⟨by simp, ?_, ?_⟩
    · rw [hcons]
      exact hlast
    · intro q hq
      rw [List.dropLast_cons_of_ne_nil hne] at hq
      rcases List.mem_cons.mp hq with hq | hq
      · subst hq
        exact hiend
      · exact hdrop q hq

/-! ## read_metadata on buffers without a matching chunk -/

/-- When every zTXt chunk of the walk has a payload at least as long as the
signature-profile prefix and none of those payloads begins with it, the read
loop reaches the end of the chunk list and reports the absence of
metadata. -/
theorem readLoop_no_metadata {buf : List Nat} {pos : Nat} {l : List (Nat × PngChunk)}
    {e : Nat} (w : Walk buf pos l e)
    (hno : ∀ q ∈ l, q.2.name = zTXtBytes →
      RAW_PROFILE_TYPE_EXIF.length ≤ q.2.length ∧
      RAW_PROFILE_TYPE_EXIF.isPrefixOf (extract buf (q.1 + 8) q.2.length) = false) :
    ∀ d dp, readLoop d dp buf (l.map (·.2)) pos =
      .error (.ioErr .other "No metadata found!") := by
  induction w with
  | @last pos c e hg hiend =>
    intro d dp
    have hz : c.name ≠ zTXtBytes := by
      rw [hiend]
      decide
    simp [readLoop, hz]
  | @cons pos c pos' l e hg hiend w' ih =>
    intro d dp
    obtain ⟨h8, hpos', hple, hname, hlen⟩ := getNext_ok hg
    have htail : ∀ q ∈ l, q.2.name = zTXtBytes →
        RAW_PROFILE_TYPE_EXIF.length ≤ q.2.length ∧
        RAW_PROFILE_TYPE_EXIF.isPrefixOf (extract buf (q.1 + 8) q.2.length) = false :=
      fun q hq => hno q (List.mem_cons_of_mem _ hq)
    simp only [List.map_cons]
    by_cases hz : c.name = zTXtBytes
    · unfold readLoop
      rw [if_neg (by simpa using hz)]
      have hrc : readCount buf (pos + 8) c.length = c.length := by
        simp only [readCount]
        omega
      rw [if_neg (by simp [hrc])]
      obtain ⟨hq1, hq2⟩ := hno (pos, c) (List.mem_cons_self _ _) hz
      dsimp only at hq1 hq2
      have hdl : (extract buf (pos + 8) c.length).length = c.length := by
        simp only [extract, List.length_take, List.length_drop]
        omega
      have hcp : comparePrefix (extract buf (pos + 8) c.length) = .ok false := by
        rw [comparePrefix_spec (by omega)]
        rw [hq2]
      dsimp only
      rw [hcp]
      dsimp only
      rw [if_neg (by simp)]
      have hstep : pos + 8 + c.length + 4 = pos' := by omega
      rw [hstep]
      exact ih htail d dp
    · unfold readLoop
      rw [if_pos (by simpa using hz)]
      have hstep : pos + c.length + 12 = pos' := by omega
      rw [hstep]
      exact ih htail d dp

/-- `clear_metadata` never changes the buffer, whatever its outcome. -/
theorem clearMetadata_no_mutation (buf : List Nat) : (clearMetadata buf).2 = buf := by
  unfold clearMetadata
  cases hp : parsePng buf with
  | error e => rfl
  | ok chunks =>
    unfold parsePng at hp
    cases hf : parsePngFull buf with
    | error e =>
      rw [hf] at hp
      exact absurd hp (by simp)
    | ok le =>
      obtain ⟨l, efin⟩ := le
      rw [hf] at hp
      simp only [Except.ok.injEq] at hp
      subst hp
      unfold parsePngFull at hf
      cases hs : checkSignature buf with
      | error e =>
        rw [hs] at hf
        exact absurd hf (by simp)
      | ok pos0 =>
        rw [hs] at hf
        dsimp only at hf
        have hpos0 : pos0 = 8 := by
          unfold checkSignature at hs
          dsimp only at hs
          split at hs
          · exact absurd hs (by simp)
          · split at hs
            · exact absurd hs (by simp)
            · simpa using hs.symm
        subst hpos0
        exact clearLoop_no_mutation (parseAnnotAux_walk hf) (by omega)

/-! ## write_metadata layout -/

/-- The two consecutive insertions of `write_metadata` (vec.rs:342-343)
amount to a single insertion of the length field followed by the chunk
body. -/
theorem insertAt_insertAt (b x y : List Nat) (s : Nat) (hx : x.length = 4) :
    insertAt (insertAt b s x) (s + 4) y = b.take s ++ x ++ y ++ b.drop s := by
  unfold insertAt
  by_cases hs : s ≤ b.length
  · have hlen1 : (b.take s ++ x).length = s + 4 := by
      simp only [List.length_append, List.length_take, hx]
      omega
    have h1 : (b.take s ++ x ++ b.drop s).take (s + 4) = b.take s ++ x := by
      rw [List.take_append_eq_append_take]
      rw [List.take_of_length_le (le_of_eq hlen1)]
      rw [hlen1]
      simp
    have h2 : (b.take s ++ x ++ b.drop s).drop (s + 4) = b.drop s := by
      rw [List.drop_append_eq_append_drop]
      rw [List.drop_eq_nil_of_le (le_of_eq hlen1)]
      rw [hlen1]
      simp
    rw [h1, h2]
  · have hb : b.take s = b := List.take_of_length_le (by omega)
    have hd : b.drop s = [] := List.drop_eq_nil_of_le (by omega)
    rw [hb, hd]
    have h1 : ((b ++ x ++ []).take (s + 4)) = b ++ x ++ [] :=
      List.take_of_length_le (by simp only [List.length_append, List.length_nil, hx]; omega)
    have h2 : ((b ++ x ++ []).drop (s + 4)) = [] :=
      List.drop_eq_nil_of_le (by simp only [List.length_append, List.length_nil, hx]; omega)
    rw [h1, h2]
    simp

/-- Round trip of the big-endian length field. -/
theorem be32Val_be32Bytes {x : Nat} (h : x < 2 ^ 32) : be32Val (be32Bytes x) = x := by
  simp only [be32Val, be32Bytes, List.foldl]
  omega

/-- Unfolding of a successful `write_metadata`: the cleared buffer is the
original one (no-mutation), the first chunk's length fixes the insertion
offset, and the new chunk is spliced in as one contiguous block. -/
theorem writeMetadata_layout {buf : List Nat} {c0 : PngChunk} {cs : List PngChunk}
    (h1 : (clearMetadata buf).1 = .ok ()) (h2 : parsePng buf = .ok (c0 :: cs))
    (enc : List Nat) :
    writeMetadata buf (.ok enc) =
      (.ok (), buf.take (PNG_SIGNATURE.length + c0.length + 12) ++
        (be32Bytes (((zTXtBytes ++ RAW_PROFILE_TYPE_EXIF ++ enc ++
            be32Bytes (crc32 (zTXtBytes ++ RAW_PROFILE_TYPE_EXIF ++ enc))).length % 2 ^ 32 +
          (2 ^ 32 - 8)) % 2 ^ 32) ++
        ((zTXtBytes ++ RAW_PROFILE_TYPE_EXIF ++ enc ++
          be32Bytes (crc32 (zTXtBytes ++ RAW_PROFILE_TYPE_EXIF ++ enc))) ++
        buf.drop (PNG_SIGNATURE.length + c0.length + 12)))) := by
  have hcm : clearMetadata buf = (.ok (), buf) :=
    Prod.ext h1 (clearMetadata_no_mutation buf)
  unfold writeMetadata
  rw [hcm]
  dsimp only
  rw [h2]
  dsimp only
  unfold writeMetadata.writeAfterClear
  dsimp only
  rw [insertAt_insertAt _ _ _ _ (by simp [be32Bytes])]
  simp [List.append_assoc]

/-! ## Correctness of the tag iterator -/

/-- The stream of tags the iterator still has ahead of it from state
`(i, j)`: the rest of the current IFD's tags, then all tags of the later
IFDs. -/
def restTags (m : Metadata) (i j : Nat) : List ExifTag :=
  match m.image_file_directories.drop i with
  | [] => []
  | ifd :: more => ifd.tags.drop j ++ (more.map (fun x => x.tags)).flatten

/-- From a state at the end of the current IFD's tags, moving to the next
IFD leaves the remaining stream unchanged. -/
theorem restTags_next_ifd {m : Metadata} {i : Nat} (j : Nat)
    (hi : i < m.image_file_directories.length)
    (hj : (m.image_file_directories[i].tags).length <= j) :
    restTags m i j = restTags m (i + 1) 0 := by
  unfold restTags
  rw [List.drop_eq_getElem_cons hi]
  dsimp only
  rw [List.drop_eq_nil_of_le hj]
  cases hd : m.image_file_directories.drop (i + 1) with
  | nil => simp
  | cons ifd2 more2 => simp

/-- With the cursor inside the current IFD's tag list, the remaining stream
starts with the tag under the cursor. -/
theorem restTags_cons {m : Metadata} {i j : Nat}
    (hi : i < m.image_file_directories.length)
    (hj : j < (m.image_file_directories[i].tags).length) :
    restTags m i j = m.image_file_directories[i].tags[j] :: restTags m i (j + 1) := by
  unfold restTags
  rw [List.drop_eq_getElem_cons hi]
  dsimp only
  rw [List.drop_eq_getElem_cons hj]
  rfl

/-- Past the last IFD the remaining stream is empty. -/
theorem restTags_nil {m : Metadata} {i : Nat} (j : Nat)
    (hi : m.image_file_directories.length <= i) : restTags m i j = [] := by
  unfold restTags
  rw [List.drop_eq_nil_of_le hi]

/-- From the initial tag cursor the remaining stream is all tags of the
remaining IFDs. -/
theorem restTags_zero (m : Metadata) (i : Nat) :
    restTags m i 0 = ((m.image_file_directories.drop i).map (fun x => x.tags)).flatten := by
  unfold restTags
  cases hd : m.image_file_directories.drop i with
  | nil => simp
  | cons ifd more => simp

/-- The remaining stream never exceeds the total tag count. -/
theorem restTags_length_le (m : Metadata) (i j : Nat) :
    (restTags m i j).length <= totalTags m := by
  have h1 : (restTags m i j).length <= (restTags m i 0).length := by
    unfold restTags
    cases hd : m.image_file_directories.drop i with
    | nil => simp
    | cons ifd more =>
      simp only [List.length_append, List.length_drop, List.drop_zero]
      omega
  have h2 : (restTags m i 0).length <= totalTags m := by
    rw [restTags_zero]
    unfold totalTags
    conv_rhs => rw [<- List.take_append_drop i m.image_file_directories]
    simp only [List.map_append, List.sum_append, List.length_flatten, List.map_map]
    have hcomp : (List.length ∘ fun x : ImageFileDirectory => x.tags) =
        fun ifd : ImageFileDirectory => ifd.tags.length := rfl
    rw [hcomp]
    exact Nat.le_add_left _ _
  exact h1.trans h2

/-- Behaviour of the `next` loop body under sufficient fuel, phrased against
the remaining stream: on an empty filtered stream the loop returns `none`;
otherwise it yields the head of the filtered stream and moves to a state
whose filtered stream is the tail. -/
theorem nextAux_spec (m : Metadata) (hex : Nat) :
    ∀ fuel i j,
      m.image_file_directories.length - i + (restTags m i j).length < fuel →
      (((restTags m i j).filter (fun t => t.code == hex) = [] ∧
          nextAux m hex fuel i j = none) ∨
        (∃ t rest i2 j2, (restTags m i j).filter (fun t => t.code == hex) = t :: rest ∧
          nextAux m hex fuel i j = some (t, i2, j2) ∧
          (restTags m i2 j2).filter (fun t => t.code == hex) = rest ∧
          m.image_file_directories.length - i2 + (restTags m i2 j2).length <=
            m.image_file_directories.length - i + (restTags m i j).length)) := by
  intro fuel
  induction fuel with
  | zero =>
    intro i j hmu
    omega
  | succ fuel ih =>
    intro i j hmu
    by_cases hi : i < m.image_file_directories.length
    · have hgd : (m.image_file_directories.getD i ⟨[]⟩).tags =
          m.image_file_directories[i].tags := by
        rw [List.getD_eq_getElem _ _ hi]
      by_cases hj : j < (m.image_file_directories[i].tags).length
      · have hcons := restTags_cons hi hj
        have hclen := congrArg List.length hcons
        simp only [List.length_cons] at hclen
        have hgt : (m.image_file_directories[i].tags).getD j ⟨0, []⟩ =
            m.image_file_directories[i].tags[j] := by
          rw [List.getD_eq_getElem _ _ hj]
        by_cases hc : m.image_file_directories[i].tags[j].code = hex
        · right
          refine ⟨m.image_file_directories[i].tags[j],
            (restTags m i (j + 1)).filter (fun t => t.code == hex), i, j + 1, ?_, ?_, rfl, ?_⟩
          · rw [hcons]
            simp [List.filter_cons, hc]
          · simp only [nextAux]
            rw [if_pos hi]
            rw [hgd, if_pos hj, hgt, if_pos hc]
          · omega
        · have hfe : (restTags m i j).filter (fun t => t.code == hex) =
              (restTags m i (j + 1)).filter (fun t => t.code == hex) := by
            rw [hcons]
            simp [List.filter_cons, hc]
          have hmu2 : m.image_file_directories.length - i +
              (restTags m i (j + 1)).length < fuel := by omega
          have hstep : nextAux m hex (fuel + 1) i j = nextAux m hex fuel i (j + 1) := by
            simp only [nextAux]
            rw [if_pos hi]
            rw [hgd, if_pos hj, hgt, if_neg hc]
          rcases ih i (j + 1) hmu2 with ⟨hf, hn⟩ | ⟨t, rest, i2, j2, hf, hn, hf2, hm⟩
          · left
            rw [hfe, hstep]
            exact ⟨hf, hn⟩
          · right
            exact ⟨t, rest, i2, j2, by rw [hfe]; exact hf, by rw [hstep]; exact hn, hf2,
              by omega⟩
      · have heq := restTags_next_ifd j hi (by omega)
        have hmu2 : m.image_file_directories.length - (i + 1) +
            (restTags m (i + 1) 0).length < fuel := by
          rw [<- heq]
          omega
        have hstep : nextAux m hex (fuel + 1) i j = nextAux m hex fuel (i + 1) 0 := by
          simp only [nextAux]
          rw [if_pos hi]
          rw [hgd, if_neg (by omega)]
        rcases ih (i + 1) 0 hmu2 with ⟨hf, hn⟩ | ⟨t, rest, i2, j2, hf, hn, hf2, hm⟩
        · left
          rw [heq, hstep]
          exact ⟨hf, hn⟩
        · right
          refine ⟨t, rest, i2, j2, by rw [heq]; exact hf, by rw [hstep]; exact hn, hf2, ?_⟩
          rw [heq]
          omega
    · left
      constructor
      · rw [restTags_nil j (by omega)]
        rfl
      · simp only [nextAux]
        rw [if_neg hi]

/-- Exhausting the iterator from any state collects exactly the matching
tags of the remaining stream, in order. -/
theorem collectAux_spec (m : Metadata) (hex : Nat) :
    ∀ n i j, ((restTags m i j).filter (fun t => t.code == hex)).length < n →
      collectAux n ⟨m, i, j, hex⟩ =
        (restTags m i j).filter (fun t => t.code == hex) := by
  intro n
  induction n with
  | zero =>
    intro i j h
    omega
  | succ n ih =>
    intro i j h
    have hmu : m.image_file_directories.length - i + (restTags m i j).length <
        m.image_file_directories.length + totalTags m + 1 := by
      have := restTags_length_le m i j
      omega
    rcases nextAux_spec m hex _ i j hmu with ⟨hf, hn⟩ | ⟨t, rest, i2, j2, hf, hn, hf2, hm⟩
    · simp only [collectAux, GetTagIterator.next]
      rw [hn]
      exact hf.symm
    · simp only [collectAux, GetTagIterator.next]
      rw [hn]
      dsimp only
      rw [hf]
      have hlen : rest.length < n := by
        have := congrArg List.length hf
        simp only [List.length_cons] at this
        omega
      rw [ih i2 j2 (by rw [hf2]; exact hlen), hf2]

/-- The full yielded sequence of `get_tag_by_hex` is the code-filtered
concatenation of all IFD tag lists, in traversal order. -/
theorem yieldList_get_tag_by_hex (m : Metadata) (hex : Nat) :
    yieldList (m.get_tag_by_hex hex) =
      ((m.image_file_directories.map (fun x => x.tags)).flatten).filter
        (fun t => t.code == hex) := by
  have h0 : restTags m 0 0 = (m.image_file_directories.map (fun x => x.tags)).flatten := by
    rw [restTags_zero]
    simp
  unfold yieldList Metadata.get_tag_by_hex
  dsimp only
  have hlt : ((restTags m 0 0).filter (fun t => t.code == hex)).length < totalTags m + 1 := by
    have h1 := List.length_filter_le (fun t => t.code == hex) (restTags m 0 0)
    have h2 := restTags_length_le m 0 0
    omega
  rw [collectAux_spec m hex _ 0 0 hlt, h0]

/-! ## Concrete buffers

Minimal well-formed PNG buffers (CRC trailers are genuine CRC-32 values of
the respective type+payload bytes, re-verified here by the parser itself). -/

/-- A 12-byte IHDR chunk with empty payload. -/
def IHDR0 : List Nat := [0, 0, 0, 0, 73, 72, 68, 82, 168, 161, 174, 10]

/-- A 12-byte IEND chunk. -/
def IEND0 : List Nat := [0, 0, 0, 0, 73, 69, 78, 68, 174, 66, 96, 130]

/-- Minimal well-formed PNG: signature, empty IHDR, IEND. -/
def B0 : List Nat := PNG_SIGNATURE ++ IHDR0 ++ IEND0

/-- A zTXt chunk whose 23-byte payload is exactly the signature-profile
prefix. -/
def ZT1 : List Nat :=
  [0, 0, 0, 23, 122, 84, 88, 116] ++ RAW_PROFILE_TYPE_EXIF ++ [109, 132, 112, 175]

/-- A well-formed PNG holding one metadata-carrying zTXt chunk. -/
def B1 : List Nat := PNG_SIGNATURE ++ IHDR0 ++ ZT1 ++ IEND0

/-- A zTXt chunk with empty payload. -/
def ZT0 : List Nat := [0, 0, 0, 0, 122, 84, 88, 116, 107, 121, 123, 241]

/-- A well-formed PNG holding one zTXt chunk whose payload is empty, hence
shorter than the signature-profile prefix. -/
def B2 : List Nat := PNG_SIGNATURE ++ IHDR0 ++ ZT0 ++ IEND0

/-- A buffer whose first chunk carries a correct CRC but a type-name field
that is not valid UTF-8. -/
def B3 : List Nat := PNG_SIGNATURE ++ [0, 0, 0, 0, 255, 255, 255, 255, 255, 255, 255, 255]

/-- A buffer whose first chunk carries a correct CRC and the valid-ASCII
name "AB1D", which fails the accepted-name check (the digit). -/
def B4 : List Nat := PNG_SIGNATURE ++ [0, 0, 0, 0, 65, 66, 49, 68, 198, 30, 59, 209]

/-- Eight zero bytes: long enough for the signature slice, wrong magic. -/
def B5 : List Nat := [0, 0, 0, 0, 0, 0, 0, 0]

/-! ## Remaining helper facts -/

/-- `write_metadata` either succeeds or leaves the buffer untouched. -/
theorem writeMetadata_error_state (buf : List Nat) (enc : Except PErr (List Nat)) :
    (writeMetadata buf enc).1 = .ok () ∨ (writeMetadata buf enc).2 = buf := by
  have hnm := clearMetadata_no_mutation buf
  unfold writeMetadata
  cases hc : (clearMetadata buf).1 with
  | error e =>
    have hceq : clearMetadata buf = (.error e, buf) := Prod.ext hc hnm
    rw [hceq]
    exact Or.inr rfl
  | ok u =>
    cases u
    have hceq : clearMetadata buf = (.ok (), buf) := Prod.ext hc hnm
    rw [hceq]
    dsimp only
    cases hp : parsePng buf with
    | error e2 =>
      unfold writeMetadata.writeAfterClear
      cases enc with
      | error e3 => exact Or.inr rfl
      | ok v => exact Or.inl rfl
    | ok l =>
      cases l with
      | nil => exact Or.inr rfl
      | cons c cs =>
        unfold writeMetadata.writeAfterClear
        cases enc with
        | error e3 => exact Or.inr rfl
        | ok v => exact Or.inl rfl

/-! ## Claim theorems, witnesses and counterexamples -/

set_option maxRecDepth 10000 in
/-- C1 (code-bug evidence): on the well-formed PNG `B1`, which contains
exactly one zTXt chunk whose payload begins with the Exif signature-profile
prefix, `clear_metadata` succeeds yet returns the buffer byte-for-byte
unchanged — the matching chunk is not excised, contradicting the claim that
every matching zTXt chunk is removed.  Root cause: the cursor in
`clear_metadata` is created at position 0 instead of 8 (vec.rs:166), so the
prefix comparison reads the chunk's length/type fields and never matches. -/
theorem C1_clear_metadata_removes_nothing :
    matchingCount B1 = some 1 ∧ clearMetadata B1 = (.ok (), B1) := by
  constructor
  · decide
  · decide

/-- C2: whenever `clear_metadata` or `write_metadata` returns an error, the
buffer after the call is byte-for-byte identical to the buffer before the
call (for every buffer and every encoded-metadata outcome). -/
theorem C2_error_leaves_buffer_unchanged (buf : List Nat) (enc : Except PErr (List Nat)) :
    (∀ err : PErr, (clearMetadata buf).1 = .error err → (clearMetadata buf).2 = buf) ∧
    (∀ err : PErr, (writeMetadata buf enc).1 = .error err → (writeMetadata buf enc).2 = buf) := by
  refine ⟨fun _ _ => clearMetadata_no_mutation buf, fun err herr => ?_⟩
  rcases writeMetadata_error_state buf enc with hok | hbuf
  · rw [herr] at hok
    exact absurd hok (by simp)
  · exact hbuf

/-- C2 witness: the wrong-signature buffer `B5`, on which both mutating
operations fail, is left unchanged by both. -/
theorem C2_witness :
    (clearMetadata B5).2 = B5 ∧ (writeMetadata B5 (.ok [1])).2 = B5 := by
  have h := C2_error_leaves_buffer_unchanged B5 (.ok [1])
  exact ⟨h.1 (.ioErr .invalidData "Can't open PNG file - Wrong signature!") (by decide),
    h.2 (.ioErr .invalidData "Can't open PNG file - Wrong signature!") (by decide)⟩


set_option maxRecDepth 10000 in
/-- C3 counterexample: `B3`'s first chunk has a correct CRC but a type-name
field that is not valid ASCII (nor valid UTF-8); `get_next_chunk_descriptor`
and `parse_png` panic on the `.unwrap()` of the `from_utf8` result
(vec.rs:111) instead of returning the "other" invalid-chunk-name error the
claim promises. -/
theorem C3_counterexample :
    getNext B3 8 = .error .panic ∧ parsePng B3 = .error .panic ∧
    getNext B3 8 ≠ .error (.ioErr .other "Invalid PNG chunk name") := by
  refine ⟨by decide, by decide, by decide⟩

/-- C3 (amended): for every buffer position at which the chunk's three reads
fit inside the buffer and the CRC check passes, if the 4-byte type-name
field is valid UTF-8 but fails the accepted-name check, then
`get_next_chunk_descriptor` returns the "other" invalid-chunk-name error —
and so does `parse_png` when that chunk is the first one; a name that is
not valid UTF-8 panics instead (see the counterexample). -/
theorem C3_amended (buf : List Nat) (pos : Nat)
    (hlen : pos + 12 + be32Val (extract buf pos 4) ≤ buf.length)
    (hcrc : be32Bytes (crc32 (extract buf (pos + 4) 4 ++
        extract buf (pos + 8) (be32Val (extract buf pos 4)))) =
      extract buf (pos + 8 + be32Val (extract buf pos 4)) 4)
    (hutf : validUtf8 (extract buf (pos + 4) 4) = true)
    (hacc : acceptedName (extract buf (pos + 4) 4) = false) :
    getNext buf pos = .error (.ioErr .other "Invalid PNG chunk name") ∧
    (pos = 8 → checkSignature buf = .ok 8 →
      parsePng buf = .error (.ioErr .other "Invalid PNG chunk name")) := by
  have htk : (extract buf pos 8).take 4 = extract buf pos 4 := by
    simp [extract, List.take_take]
  have hname : (extract buf pos 8).drop 4 = extract buf (pos + 4) 4 := by
    simp [extract, List.drop_take, List.drop_drop]
  have hg : getNext buf pos = .error (.ioErr .other "Invalid PNG chunk name") := by
    unfold getNext
    dsimp only
    rw [htk, hname]
    rw [if_neg (by simp [readCount]; omega)]
    rw [if_neg (by simp [readCount]; omega)]
    rw [if_neg (by simp [readCount]; omega)]
    rw [if_neg (by simp [hcrc])]
    rw [if_pos hutf]
    rw [pngChunkFromName]
    rw [if_neg (by simp [hacc])]
  refine ⟨hg, fun hp hs => ?_⟩
  subst hp
  unfold parsePng parsePngFull
  rw [hs]
  dsimp only
  unfold parseAnnotAux
  rw [hg]

set_option maxRecDepth 10000 in
/-- C3 witness: `B4`'s first chunk is named "AB1D" (valid ASCII, fails the
accepted-name grammar because of the digit) with a correct CRC. -/
theorem C3_witness :
    getNext B4 8 = .error (.ioErr .other "Invalid PNG chunk name") ∧
    parsePng B4 = .error (.ioErr .other "Invalid PNG chunk name") := by
  have h := C3_amended B4 8 (by decide) (by decide) (by decide) (by decide)
  exact ⟨h.1, h.2 rfl (by decide)⟩


set_option maxRecDepth 900000 in
/-- C4 (code-bug evidence): writing metadata twice into the well-formed PNG
`B0` leaves TWO metadata-carrying chunks in the buffer, not one — the second
`write_metadata` fails to clear the first chunk (the `clear_metadata` cursor
bug) and inserts its own chunk in front of it. -/
theorem C4_write_twice_duplicates :
    (writeMetadata B0 (.ok [1])).1 = .ok () ∧
    (writeMetadata (writeMetadata B0 (.ok [1])).2 (.ok [2])).1 = .ok () ∧
    matchingCount (writeMetadata (writeMetadata B0 (.ok [1])).2 (.ok [2])).2 = some 2 :=
  ⟨by decide, by decide, by decide⟩

/-- C5: for every buffer that `clear_metadata` accepts, every parsed first
chunk and every compressed-metadata byte list (whose chunk stays below the
u32 limit), `write_metadata` splices `length-field ++ chunk` in at offset
`signature length + first-chunk payload length + 12`, the 4-byte big-endian
length field encodes exactly `assembled chunk bytes - 8`, and that value is
the payload byte count: signature-profile prefix plus compressed data. -/
theorem C5_write_length_field {buf : List Nat} {c0 : PngChunk} {cs : List PngChunk}
    (h1 : (clearMetadata buf).1 = .ok ()) (h2 : parsePng buf = .ok (c0 :: cs))
    (enc : List Nat) (h3 : enc.length + 31 < 2 ^ 32) :
    writeMetadata buf (.ok enc) = (.ok (),
      insertAt buf (PNG_SIGNATURE.length + c0.length + 12)
        (be32Bytes (RAW_PROFILE_TYPE_EXIF.length + enc.length) ++
         (zTXtBytes ++ RAW_PROFILE_TYPE_EXIF ++ enc ++
           be32Bytes (crc32 (zTXtBytes ++ RAW_PROFILE_TYPE_EXIF ++ enc))))) ∧
    RAW_PROFILE_TYPE_EXIF.length + enc.length =
      (zTXtBytes ++ RAW_PROFILE_TYPE_EXIF ++ enc ++
        be32Bytes (crc32 (zTXtBytes ++ RAW_PROFILE_TYPE_EXIF ++ enc))).length - 8 ∧
    be32Val (be32Bytes (RAW_PROFILE_TYPE_EXIF.length + enc.length)) =
      RAW_PROFILE_TYPE_EXIF.length + enc.length := by
  have hblen : (zTXtBytes ++ RAW_PROFILE_TYPE_EXIF ++ enc ++
      be32Bytes (crc32 (zTXtBytes ++ RAW_PROFILE_TYPE_EXIF ++ enc))).length =
      31 + enc.length := by
    simp [zTXtBytes, RAW_PROFILE_TYPE_EXIF, be32Bytes]
    omega
  have harith : ((zTXtBytes ++ RAW_PROFILE_TYPE_EXIF ++ enc ++
      be32Bytes (crc32 (zTXtBytes ++ RAW_PROFILE_TYPE_EXIF ++ enc))).length % 2 ^ 32 +
      (2 ^ 32 - 8)) % 2 ^ 32 = RAW_PROFILE_TYPE_EXIF.length + enc.length := by
    rw [hblen]
    simp only [RAW_PROFILE_TYPE_EXIF, List.length_cons, List.length_nil]
    omega
  refine ⟨?_, ?_, ?_⟩
  · rw [writeMetadata_layout h1 h2 enc]
    rw [harith]
    simp [insertAt, List.append_assoc]
  · rw [hblen]
    simp [RAW_PROFILE_TYPE_EXIF]
    omega
  · exact be32Val_be32Bytes (by simp [RAW_PROFILE_TYPE_EXIF]; omega)


set_option maxRecDepth 10000 in
/-- C5 witness: writing one byte of compressed metadata into `B0` inserts
the chunk at offset 20 with length field `24 = 23 + 1`. -/
theorem C5_witness :
    writeMetadata B0 (.ok [5]) = (.ok (),
      insertAt B0 (PNG_SIGNATURE.length + 0 + 12)
        (be32Bytes (RAW_PROFILE_TYPE_EXIF.length + 1) ++
         (zTXtBytes ++ RAW_PROFILE_TYPE_EXIF ++ [5] ++
           be32Bytes (crc32 (zTXtBytes ++ RAW_PROFILE_TYPE_EXIF ++ [5]))))) := by
  have h := @C5_write_length_field B0 ⟨[73, 72, 68, 82], 0⟩
    [⟨[73, 69, 78, 68], 0⟩] (by decide) (by decide) [5] (by decide)
  simpa using h.1

/-- C6: on every buffer on which `clear_metadata` succeeds, applying it
twice yields a buffer byte-for-byte identical to applying it once (indeed a
single application already returns the buffer unchanged). -/
theorem C6_clear_idempotent (buf : List Nat) (h : (clearMetadata buf).1 = .ok ()) :
    (clearMetadata buf).2 = buf ∧
    clearMetadata ((clearMetadata buf).2) = clearMetadata buf := by
  have hnm := clearMetadata_no_mutation buf
  exact ⟨hnm, by rw [hnm]⟩

set_option maxRecDepth 10000 in
/-- C6 witness: idempotence at the concrete PNG `B1`. -/
theorem C6_witness :
    (clearMetadata B1).2 = B1 ∧ clearMetadata ((clearMetadata B1).2) = clearMetadata B1 :=
  C6_clear_idempotent B1 (by decide)

/-- C7: every successful `parse_png` returns a nonempty descriptor sequence
whose last element is named "IEND" and none of whose earlier elements is;
and the parse result only depends on the bytes up to the end of the first
IEND chunk's CRC trailer (position `e`): any buffer agreeing on those bytes
parses to the same result, so no later byte is inspected. -/
theorem C7_parse_terminates_at_iend {buf : List Nat} {l : List (Nat × PngChunk)} {e : Nat}
    (h : parsePngFull buf = .ok (l, e)) :
    parsePng buf = .ok (l.map (fun p => p.2)) ∧
    l ≠ [] ∧
    (l.getLast?.map (fun p => p.2.name)) = some IENDBytes ∧
    (∀ p ∈ l.dropLast, p.2.name ≠ IENDBytes) ∧
    (∀ buf2 : List Nat, buf2.take e = buf.take e → parsePngFull buf2 = .ok (l, e)) := by
  obtain ⟨w, hs, hp⟩ := parsePngFull_ok h
  obtain ⟨h1, h2, h3⟩ := walk_iend w
  exact ⟨hp, h1, h2, h3, fun buf2 hb => parsePngFull_stable h hb⟩

set_option maxRecDepth 10000 in
/-- C7 witness: `B0` parses to IHDR/IEND, and appending a junk byte after
the IEND trailer does not change the parse. -/
theorem C7_witness :
    parsePng B0 = .ok [⟨[73, 72, 68, 82], 0⟩, ⟨[73, 69, 78, 68], 0⟩] ∧
    parsePngFull (B0 ++ [7]) =
      .ok ([(8, ⟨[73, 72, 68, 82], 0⟩), (20, ⟨[73, 69, 78, 68], 0⟩)], 32) := by
  have h := @C7_parse_terminates_at_iend B0
    [(8, ⟨[73, 72, 68, 82], 0⟩), (20, ⟨[73, 69, 78, 68], 0⟩)] 32 (by decide)
  exact ⟨h.1, h.2.2.2.2 (B0 ++ [7]) (by decide)⟩

set_option maxRecDepth 10000 in
/-- C8 counterexample: `B2` parses end-to-end and contains no zTXt chunk
whose payload begins with the signature-profile prefix (its only zTXt chunk
has an empty payload), yet `read_metadata` panics on the unguarded index
`zTXt_chunk_data[i]` (vec.rs:259) instead of returning the "no metadata
found" result the claim promises. -/
theorem C8_counterexample :
    matchingCount B2 = some 0 ∧
    readMetadata (fun _ => none) (fun _ => none) B2 = .error .panic ∧
    readMetadata (fun _ => none) (fun _ => none) B2 ≠
      .error (.ioErr .other "No metadata found!") := by
  refine ⟨by decide, by decide, by decide⟩

/-- C8 (amended): for every buffer that parses successfully end-to-end in
which every zTXt chunk's payload is at least as long as the
signature-profile prefix and none of those payloads begins with it,
`read_metadata` returns the "other"-kind "no metadata found" result,
whatever the decompression and decoding collaborators do; a zTXt payload
shorter than the prefix panics instead (see the counterexample). -/
theorem C8_no_metadata {buf : List Nat} {l : List (Nat × PngChunk)} {e : Nat}
    (h : parsePngFull buf = .ok (l, e))
    (hno : ∀ q ∈ l, q.2.name = zTXtBytes →
      RAW_PROFILE_TYPE_EXIF.length ≤ q.2.length ∧
      RAW_PROFILE_TYPE_EXIF.isPrefixOf (extract buf (q.1 + 8) q.2.length) = false) :
    ∀ d dp, readMetadata d dp buf = .error (.ioErr .other "No metadata found!") := by
  obtain ⟨w, hs, hp⟩ := parsePngFull_ok h
  intro d dp
  unfold readMetadata
  rw [hp]
  dsimp only
  rw [hs]
  dsimp only
  exact readLoop_no_metadata w hno d dp

set_option maxRecDepth 10000 in
/-- C8 witness: `B0` holds no zTXt chunk at all, and reading it reports the
absence of metadata. -/
theorem C8_witness :
    readMetadata (fun _ => none) (fun _ => none) B0 =
      .error (.ioErr .other "No metadata found!") :=
  C8_no_metadata (l := [(8, ⟨[73, 72, 68, 82], 0⟩), (20, ⟨[73, 69, 78, 68], 0⟩)]) (e := 32)
    (by decide) (by decide) _ _

/-- C9: for every Metadata container and requested code,
`get_tag_by_hex` yields exactly the tags whose code equals the requested
code — IFDs in container order, tags in storage order, nothing after the
IFDs are consumed; in particular for IFDs [A, B] with A = [x(code 5),
y(code 7)] and B = [z(code 5)], requesting code 5 yields x then z and
nothing else. -/
theorem C9_iterator_order :
    (∀ (m : Metadata) (hex : Nat),
      yieldList (m.get_tag_by_hex hex) =
        ((m.image_file_directories.map (fun x => x.tags)).flatten).filter
          (fun t => t.code == hex)) ∧
    yieldList ((⟨[⟨[⟨5, [1]⟩, ⟨7, [2]⟩]⟩, ⟨[⟨5, [3]⟩]⟩]⟩ : Metadata).get_tag_by_hex 5) =
      [⟨5, [1]⟩, ⟨5, [3]⟩] :=
  ⟨yieldList_get_tag_by_hex, by decide⟩

/-- C10: on every buffer shorter than 8 bytes the slice `file_buffer[0..8]`
in `check_signature` panics, so `check_signature` — and with it `parse_png`,
`clear_metadata`, `read_metadata` and `write_metadata` — panics rather than
returning the invalid-signature error; in particular the invalid-signature
error is never produced for such buffers. -/
theorem C10_short_buffer_panics (buf : List Nat) (h : buf.length < 8) :
    checkSignature buf = .error .panic ∧
    parsePng buf = .error .panic ∧
    (clearMetadata buf).1 = .error .panic ∧
    (∀ d dp, readMetadata d dp buf = .error .panic) ∧
    (∀ enc, (writeMetadata buf enc).1 = .error .panic) ∧
    (∀ msg, checkSignature buf ≠ .error (.ioErr .invalidData msg)) := by
  have hsig : checkSignature buf = .error .panic := by
    unfold checkSignature
    rw [if_pos h]
  have hparse : parsePngFull buf = .error .panic := by
    unfold parsePngFull
    rw [hsig]
  have hparse2 : parsePng buf = .error .panic := by
    unfold parsePng
    rw [hparse]
  have hclear : clearMetadata buf = (.error .panic, buf) := by
    unfold clearMetadata
    rw [hparse2]
  refine ⟨hsig, hparse2, by rw [hclear], ?_, ?_, ?_⟩
  · intro d dp
    unfold readMetadata
    rw [hparse2]
  · intro enc
    unfold writeMetadata
    rw [hclear]
  · intro msg
    rw [hsig]
    simp

/-- C10 witness: the three-byte buffer panics the signature check and the
parser. -/
theorem C10_witness :
    checkSignature [1, 2, 3] = .error .panic ∧ parsePng [1, 2, 3] = .error .panic := by
  have h := C10_short_buffer_panics [1, 2, 3] (by decide)
  exact ⟨h.1, h.2.1⟩

end LittleExif
